import Mathlib

/-!
Shallow embedding of the retrieval fusion and reranking orchestrator of the
rag-aws-demo repository: src/rag/retriever.py, src/rag/pipeline.py and
src/shared/bedrock.py.  External backends (vector store similarity search,
generation model, rerank model) are modelled as oracle functions supplied in
a `World` record; fallible calls return `Except`.
-/

set_option maxRecDepth 40000

namespace RagDemo

/-- Mirrors Python str.strip(chars): remove leading and trailing characters
belonging to the given character set. -/
def pyStripChars (cs : List Char) (s : String) : String :=
  String.mk
    (((s.toList.dropWhile fun c => cs.contains c).reverse.dropWhile
        fun c => cs.contains c).reverse)

/-- Mirrors Python str.strip(): remove leading and trailing whitespace. -/
def pyStrip (s : String) : String :=
  String.mk
    (((s.toList.dropWhile Char.isWhitespace).reverse.dropWhile
        Char.isWhitespace).reverse)

/-- Mirrors Python str.lower() for the ASCII texts handled here. -/
def pyLower (s : String) : String := String.mk (s.toList.map Char.toLower)

/-- Mirrors Python str.capitalize() for the ASCII texts handled here. -/
def pyCapitalize (s : String) : String :=
  match s.toList with
  | [] => ""
  | c :: cs => String.mk (c.toUpper :: cs.map Char.toLower)

/-- Character-level worker for splitlines: split at newline characters. -/
def splitlinesGo (cur : List Char) : List Char → List String
  | [] => [String.mk cur.reverse]
  | c :: cs =>
    if c = '\n' then String.mk cur.reverse :: splitlinesGo [] cs
    else splitlinesGo (c :: cur) cs

/-- Mirrors str.splitlines() for newline-separated text (the model fixes the
line separator to the newline character). -/
def splitlines (s : String) : List String := splitlinesGo [] s.toList

/-- Python list slicing xs[:k], including the negative-k meaning. -/
def pySliceTo (k : Int) (xs : List α) : List α :=
  if 0 ≤ k then xs.take k.toNat
  else xs.take (xs.length - (-k).toNat)

/-- Metadata of a langchain Document as used by this code base: an optional
source identifier, an optional integer chunk id (set by the ingest pipeline),
and the rerank_score entry written by invoke_rerank.  The outer Option of
rerank_score records whether the key is present; the inner Option is the
(possibly missing relevanceScore, hence None) stored value. -/
structure Metadata where
  source : Option String
  chunk_id : Option Int
  rerank_score : Option (Option Int)
deriving DecidableEq

/-- A langchain Document: page_content plus metadata. -/
structure Doc where
  page_content : String
  metadata : Metadata
deriving DecidableEq

/-- The dedup key of retriever._deduplicate:
key = metadata.get("source", "") + str(metadata.get("chunk_id", "")), and
key = key or page_content[:100]  (fall back only when the concatenation is
empty). -/
def dedupKey (d : Doc) : String :=
  let key := d.metadata.source.getD "" ++
    (match d.metadata.chunk_id with
     | some i => toString i
     | none => "")
  if key = "" then d.page_content.take 100 else key

/-- The loop of retriever._deduplicate: iterate in order, keep the first
document observed for each key. -/
def dedupGo (seen : List String) : List Doc → List Doc
  | [] => []
  | d :: ds =>
    if dedupKey d ∈ seen then dedupGo seen ds
    else d :: dedupGo (dedupKey d :: seen) ds

/-- retriever._deduplicate. -/
def deduplicate (docs : List Doc) : List Doc := dedupGo [] docs

/-- Generic first-occurrence filter parameterised by a key function; used to
state dedup specifications against alternative key definitions. -/
def dedupByKey (key : Doc → String) (seen : List String) : List Doc → List Doc
  | [] => []
  | d :: ds =>
    if key d ∈ seen then dedupByKey key seen ds
    else d :: dedupByKey key (key d :: seen) ds

/-- One element of a generation response content list: either a dict segment
(with an optional "text" entry) or a non-dict segment, which is skipped. -/
inductive Segment where
  | dict (text : Option String)
  | other
deriving DecidableEq

/-- The content attribute of a generation response: a plain string, or a list
of segments. -/
inductive RespContent where
  | text (s : String)
  | segments (l : List Segment)
deriving DecidableEq

/-- retriever._to_plain_text: join the text of dict segments with newlines. -/
def toPlainText (c : RespContent) : String :=
  match c with
  | .text s => s
  | .segments l =>
    String.intercalate "\n"
      (l.filterMap fun seg =>
        match seg with
        | .dict t => some (t.getD "")
        | .other => none)

/-- The answer-content flattening in pipeline.run: join with the empty
separator. -/
def toAnswerText (c : RespContent) : String :=
  match c with
  | .text s => s
  | .segments l =>
    String.join
      (l.filterMap fun seg =>
        match seg with
        | .dict t => some (t.getD "")
        | .other => none)

/-- line.strip("-* ").strip() in retriever._generate_variant_queries. -/
def stripVariantLine (line : String) : String :=
  pyStrip (pyStripChars ['-', '*', ' '] line)

/-- The parsing loop of retriever._generate_variant_queries: skip blank lines
and lines case-insensitively equal to the query, append otherwise, and break
once the variant count is reached. -/
def parseVariantsGo (count : Int) (query : String) :
    List String → List String → List String
  | acc, [] => acc.reverse
  | acc, line :: rest =>
    let stripped := stripVariantLine line
    if stripped = "" then parseVariantsGo count query acc rest
    else if pyLower stripped = pyLower query then parseVariantsGo count query acc rest
    else
      let acc' := stripped :: acc
      if count ≤ (acc'.length : Int) then acc'.reverse
      else parseVariantsGo count query acc' rest

/-- Variant parsing of retriever._generate_variant_queries applied to the
plain-text response content. -/
def parseVariants (count : Int) (query : String) (content : String) : List String :=
  parseVariantsGo count query [] (splitlines content)

/-- One entry of the "results" list of a Bedrock rerank response:
result.get("index") and result.get("relevanceScore"). -/
structure RerankEntry where
  index : Option Int
  relevanceScore : Option Int
deriving DecidableEq

/-- The retriever with its pydantic fields: the configuration set in
AuroraPGVectorRetriever.__init__ plus the two mutable fields
last_query_variants and last_hypothetical_document. -/
structure Retriever where
  primary_k : Int
  final_k : Int
  enable_query_fusion : Bool
  enable_hyde : Bool
  fusion_variant_count : Int
  rerank_model_id : Option String
  last_query_variants : List String
  last_hypothetical_document : Option String
deriving DecidableEq

/-- The Settings fields consumed by AuroraPGVectorRetriever.__init__. -/
structure Settings where
  vector_search_k : Int
  vector_search_k_rerank : Int
  enable_query_fusion : Bool
  enable_hyde : Bool
  fusion_variant_count : Int
  bedrock_rerank_model_id : Option String
deriving DecidableEq

/-- AuroraPGVectorRetriever.__init__: primary_k = vector_search_k,
final_k = max(vector_search_k_rerank, 1),
fusion_variant_count = max(fusion_variant_count, 1); the mutable fields start
as [] and None. -/
def mkRetriever (st : Settings) : Retriever :=
  { primary_k := st.vector_search_k
    final_k := max st.vector_search_k_rerank 1
    enable_query_fusion := st.enable_query_fusion
    enable_hyde := st.enable_hyde
    fusion_variant_count := max st.fusion_variant_count 1
    rerank_model_id := st.bedrock_rerank_model_id
    last_query_variants := []
    last_hypothetical_document := none }

/-- The external backends, modelled as oracles.  search is
vector_store.similarity_search; fusionBackend and hydeBackend are the query
LLM invoked on the fusion and HyDE prompts built from the question;
rewriteBackend is bedrock.invoke_text_generation applied to the rewrite
prompts built from the question and formatted history; rerankBackend is the
Bedrock invoke_model call of invoke_rerank, returning the parsed "results"
list; answerBackend is the answer LLM invoked on the prompt built from the
context block and the question. -/
structure World where
  search : String → Int → Except String (List Doc)
  fusionBackend : String → Except String RespContent
  hydeBackend : String → Except String RespContent
  rewriteBackend : String → String → Except String String
  rerankBackend : String → String → List String → Int → Except String (List RerankEntry)
  answerBackend : String → String → Except String RespContent

/-- Python list subscription documents[idx] with an Int index: negative
indices count from the end, out-of-range raises IndexError. -/
def pyListGet (docs : List Doc) (i : Int) : Except String Doc :=
  let j : Int := if i < 0 then (docs.length : Int) + i else i
  if 0 ≤ j then
    match docs.get? j.toNat with
    | some d => .ok d
    | none => .error "list index out of range"
  else .error "list index out of range"

/-- metadata["rerank_score"] = result.get("relevanceScore") on a copy of the
document metadata. -/
def setRerankScore (m : Metadata) (s : Option Int) : Metadata :=
  { m with rerank_score := some s }

/-- The loop over body["results"] in bedrock.invoke_rerank: skip entries with
a missing index or an index ≥ len(documents); look up documents[idx]
(an IndexError from a far-negative index aborts the call); attach the
relevance score to a copy of the metadata. -/
def rankedFromResults (docs : List Doc) : List RerankEntry → Except String (List Doc)
  | [] => .ok []
  | ⟨none, _⟩ :: rs => rankedFromResults docs rs
  | ⟨some i, score⟩ :: rs =>
    if (docs.length : Int) ≤ i then rankedFromResults docs rs
    else
      match pyListGet docs i, rankedFromResults docs rs with
      | .error e, _ => .error e
      | .ok _, .error e => .error e
      | .ok d, .ok rest =>
        .ok ({ page_content := d.page_content
               metadata := setRerankScore d.metadata score } :: rest)

/-- bedrock.invoke_rerank: empty input short-circuits to []; otherwise the
backend is called with the document texts and topN = min(top_n, len(docs)),
and the results are mapped back positionally. -/
def invokeRerank (w : World) (model_id query : String) (docs : List Doc)
    (top_n : Int) : Except String (List Doc) :=
  if docs = [] then .ok []
  else
    match w.rerankBackend model_id query (docs.map Doc.page_content)
        (min top_n (docs.length : Int)) with
    | .error e => .error e
    | .ok results => rankedFromResults docs results

/-- retriever._apply_rerank: without a configured rerank model (None or the
empty string, both falsy) truncate to final_k; otherwise call invoke_rerank,
falling back to the truncation on any exception or an empty result. -/
def applyRerank (r : Retriever) (w : World) (query : String)
    (docs : List Doc) : List Doc :=
  match r.rerank_model_id with
  | none => pySliceTo r.final_k docs
  | some mid =>
    if mid = "" then pySliceTo r.final_k docs
    else
      match invokeRerank w mid query docs r.final_k with
      | .error _ => pySliceTo r.final_k docs
      | .ok reranked =>
        if reranked = [] then pySliceTo r.final_k docs else reranked

/-- retriever._generate_variant_queries.  With fusion disabled it resets
last_query_variants and returns []; otherwise it invokes the LLM (an error
propagates, leaving the state untouched), parses the variants and stores
them in last_query_variants. -/
def generateVariantQueries (r : Retriever) (w : World) (query : String) :
    Except String (List String) × Retriever :=
  match r.enable_query_fusion with
  | false => (.ok [], { r with last_query_variants := [] })
  | true =>
    match w.fusionBackend query with
    | .error e => (.error e, r)
    | .ok resp =>
      let variants := parseVariants r.fusion_variant_count query (toPlainText resp)
      (.ok variants, { r with last_query_variants := variants })

/-- retriever._generate_hypothetical_document.  With HyDE disabled it resets
last_hypothetical_document and returns ""; otherwise it invokes the LLM (an
error propagates, leaving the state untouched), strips the text and stores
it. -/
def generateHypotheticalDocument (r : Retriever) (w : World) (query : String) :
    Except String String × Retriever :=
  match r.enable_hyde with
  | false => (.ok "", { r with last_hypothetical_document := none })
  | true =>
    match w.hydeBackend query with
    | .error e => (.error e, r)
    | .ok resp =>
      let hypo := pyStrip (toPlainText resp)
      (.ok hypo, { r with last_hypothetical_document := some hypo })

/-- The variant loop of retriever._retrieve_candidates: one similarity
search per variant, concatenating the results; a search error propagates. -/
def searchVariants (w : World) (k : Int) : List String → Except String (List Doc)
  | [] => .ok []
  | v :: vs =>
    match w.search v k with
    | .error e => .error e
    | .ok ds =>
      match searchVariants w k vs with
      | .error e => .error e
      | .ok rest => .ok (ds ++ rest)

/-- retriever._retrieve_candidates: base search, then variants, then HyDE
(searched only when the hypothetical document is non-empty), then dedup.
Every intermediate error propagates together with the retriever state
reached so far. -/
def retrieveCandidates (r : Retriever) (w : World) (query : String) :
    Except String (List Doc) × Retriever :=
  match w.search query r.primary_k with
  | .error e => (.error e, r)
  | .ok base =>
    match generateVariantQueries r w query with
    | (.error e, r1) => (.error e, r1)
    | (.ok variants, r1) =>
      match searchVariants w r.primary_k variants with
      | .error e => (.error e, r1)
      | .ok vdocs =>
        match generateHypotheticalDocument r1 w query with
        | (.error e, r2) => (.error e, r2)
        | (.ok hypo, r2) =>
          if hypo = "" then (.ok (deduplicate (base ++ vdocs)), r2)
          else
            match w.search hypo r.primary_k with
            | .error e => (.error e, r2)
            | .ok hdocs => (.ok (deduplicate (base ++ vdocs ++ hdocs)), r2)

/-- retriever._get_relevant_documents: candidates then rerank. -/
def getRelevantDocuments (r : Retriever) (w : World) (query : String) :
    Except String (List Doc) × Retriever :=
  match retrieveCandidates r w query with
  | (.error e, r1) => (.error e, r1)
  | (.ok candidates, r1) => (.ok (applyRerank r1 w query candidates), r1)

/-- One turn of the conversation history; both keys are optional in the
incoming mapping. -/
structure Turn where
  role : Option String
  content : Option String
deriving DecidableEq

/-- pipeline._format_history: empty or absent history gives "", otherwise
one "Role: content" line per turn. -/
def formatHistory : Option (List Turn) → String
  | none => ""
  | some [] => ""
  | some (t :: ts) =>
    String.intercalate "\n"
      ((t :: ts).map fun turn =>
        pyCapitalize (turn.role.getD "user") ++ ": " ++ pyStrip (turn.content.getD ""))

/-- pipeline._cleanup_result_tag: the text between the first result
open tag and the first closing tag after it, trimmed; otherwise the whole
text trimmed. -/
def cleanupResultTag (text : String) : String :=
  match text.splitOn "<result>" with
  | [] => pyStrip text
  | [_] => pyStrip text
  | _ :: p :: ps =>
    match (String.intercalate "<result>" (p :: ps)).splitOn "</result>" with
    | [] => pyStrip text
    | [_] => pyStrip text
    | inner :: _ :: _ => pyStrip inner

/-- pipeline._rewrite_question: falsy history returns the question as is; a
blank formatted history also does; a backend error is caught and falls back
to the question, as does an empty cleaned response. -/
def rewriteQuestion (w : World) (question : String)
    (history : Option (List Turn)) : String :=
  match history with
  | none => question
  | some [] => question
  | some (t :: ts) =>
    let historyText := formatHistory (some (t :: ts))
    if historyText = "" then question
    else
      match w.rewriteBackend question historyText with
      | .error _ => question
      | .ok response =>
        let rewritten := cleanupResultTag response
        if rewritten = "" then question else rewritten

/-- Rendering of a float f-string with three decimals, for the
integer-valued scores of this model. -/
def renderScore (s : Int) : String := toString s ++ ".000"

/-- One block of pipeline._format_contexts: index, source (or "unknown"),
optional score suffix, then the stripped content on the next line. -/
def contextBlock (idx : Nat) (d : Doc) : String :=
  let source := d.metadata.source.getD "unknown"
  let hdr := "[" ++ toString idx ++ "] " ++ source
  let hdr :=
    match d.metadata.rerank_score with
    | some (some s) => hdr ++ " (score=" ++ renderScore s ++ ")"
    | _ => hdr
  hdr ++ "\n" ++ pyStrip d.page_content

/-- pipeline._format_contexts: blocks joined by blank lines, 1-indexed. -/
def formatContexts (docs : List Doc) : String :=
  String.intercalate "\n\n" ((docs.enumFrom 1).map fun p => contextBlock p.1 p.2)

/-- pipeline._build_context. -/
def buildContext (docs : List Doc) : String :=
  if docs = [] then "" else formatContexts docs

/-- One context entry of the run result payload. -/
structure CtxItem where
  content : String
  metadata : Metadata
deriving DecidableEq

/-- The result dict of RAGPipeline.run. -/
structure PipelineResult where
  question : String
  rewritten_question : String
  answer : String
  contexts : List CtxItem
  query_variants : List String
  hyde_document : Option String
deriving DecidableEq

/-- RAGPipeline.run: rewrite, retrieve (errors propagate), build the context
block, invoke the answer backend (errors propagate), and assemble the result
dict; query_variants and hyde_document are read back from the retriever
state. -/
def run (r : Retriever) (w : World) (question : String)
    (history : Option (List Turn)) : Except String PipelineResult × Retriever :=
  let rewritten := rewriteQuestion w question history
  match getRelevantDocuments r w rewritten with
  | (.error e, r1) => (.error e, r1)
  | (.ok docs, r1) =>
    match w.answerBackend (buildContext docs) rewritten with
    | .error e => (.error e, r1)
    | .ok resp =>
      (.ok { question := question
             rewritten_question := rewritten
             answer := pyStrip (toAnswerText resp)
             contexts := docs.map fun d =>
               { content := d.page_content, metadata := d.metadata }
             query_variants := r1.last_query_variants
             hyde_document := r1.last_hypothetical_document }, r1)

/-! Spec-shaped definitions, used to compare stated parsing and dedup rules
against the embedded code. -/

/-- The dedup key as the specification words it: source concatenated with the
chunk sequence number when both are present in metadata, otherwise the first
100 characters of the content. -/
def dedupKeyClaim (d : Doc) : String :=
  match d.metadata.source, d.metadata.chunk_id with
  | some s, some c => s ++ toString c
  | _, _ => d.page_content.take 100

/-- The dedup key as amended: the concatenation of the source (or "") and the
decimal string of the chunk id (or ""), falling back to the first 100
characters of the content only when that concatenation is empty. -/
def dedupKeyAmended (d : Doc) : String :=
  let raw := d.metadata.source.getD "" ++ ((d.metadata.chunk_id.map toString).getD "")
  if raw = "" then d.page_content.take 100 else raw

/-- Line normalisation as the specification words it: strip the leading
bullet/dash/asterisk markers and the surrounding whitespace. -/
def stripLineClaim (line : String) : String :=
  pyStrip (String.mk (line.toList.dropWhile fun c => ['-', '*', ' '].contains c))

/-- Variant parsing as the specification words it: split into lines, strip
leading markers and surrounding whitespace, discard blank lines and lines
case-insensitively equal to the base question, keep at most count lines in
response order. -/
def parseVariantsClaim (count : Int) (query : String) (content : String) :
    List String :=
  (((splitlines content).map stripLineClaim).filter
    fun s => s != "" && pyLower s != pyLower query).take count.toNat

/-- Variant parsing as amended: as claimed, but bullet/dash/asterisk markers
and spaces are stripped from both ends of each line (then remaining
surrounding whitespace). -/
def parseVariantsAmended (count : Int) (query : String) (content : String) :
    List String :=
  (((splitlines content).map stripVariantLine).filter
    fun s => s != "" && pyLower s != pyLower query).take count.toNat

/-- Equality of the configuration fields of two retrievers (everything except
the two mutable last_* fields). -/
def cfgEq (a b : Retriever) : Prop :=
  a.primary_k = b.primary_k ∧ a.final_k = b.final_k ∧
  a.enable_query_fusion = b.enable_query_fusion ∧
  a.enable_hyde = b.enable_hyde ∧
  a.fusion_variant_count = b.fusion_variant_count ∧
  a.rerank_model_id = b.rerank_model_id

/-- A rerank result entry the mapping loop cannot use: its index is missing,
at least len(documents), or below -len(documents). -/
def entryInvalid (docs : List Doc) (e : RerankEntry) : Prop :=
  e.index = none ∨
  ∃ i, e.index = some i ∧ ((docs.length : Int) ≤ i ∨ i + (docs.length : Int) < 0)

/-! Concrete fixtures for counterexamples and witnesses. -/

/-- Metadata with no entries. -/
def mEmpty : Metadata := ⟨none, none, none⟩

/-- Document fixture A. -/
def dA : Doc := ⟨"A", mEmpty⟩

/-- Document fixture B. -/
def dB : Doc := ⟨"B", mEmpty⟩

/-- Document fixture C. -/
def dC : Doc := ⟨"C", mEmpty⟩

/-- Two documents sharing a source but no chunk id, with distinct contents. -/
def dS1 : Doc := ⟨"abc", ⟨some "s", none, none⟩⟩

/-- Second document with the same source-only metadata as dS1. -/
def dS2 : Doc := ⟨"xyz", ⟨some "s", none, none⟩⟩

/-- Retriever fixture with fusion enabled and no rerank model. -/
def rC1 : Retriever :=
  { primary_k := 3, final_k := 2, enable_query_fusion := true,
    enable_hyde := false, fusion_variant_count := 2, rerank_model_id := none,
    last_query_variants := [], last_hypothetical_document := none }

/-- World fixture whose base search always succeeds and whose fusion backend
always fails. -/
def wC1 : World :=
  { search := fun _ _ => .ok [dA]
    fusionBackend := fun _ => .error "boom"
    hydeBackend := fun _ => .error "hyde down"
    rewriteBackend := fun _ _ => .error "unused"
    rerankBackend := fun _ _ _ _ => .error "unused"
    answerBackend := fun _ _ => .ok (.text "ans") }

/-- Retriever fixture with fusion enabled and a pre-existing
last_query_variants value. -/
def rC4 : Retriever :=
  { primary_k := 3, final_k := 2, enable_query_fusion := true,
    enable_hyde := false, fusion_variant_count := 2, rerank_model_id := none,
    last_query_variants := ["old"], last_hypothetical_document := none }

/-- World fixture whose fusion backend replies with one variant line. -/
def wC4 : World :=
  { search := fun _ _ => .ok [dA]
    fusionBackend := fun _ => .ok (.text "v2")
    hydeBackend := fun _ => .error "unused"
    rewriteBackend := fun _ _ => .error "unused"
    rerankBackend := fun _ _ _ _ => .error "unused"
    answerBackend := fun _ _ => .ok (.text "ans") }

/-- Retriever fixture for Scenario A: fusion and HyDE off, no rerank model,
primary_k = 3, final_k = 2. -/
def r8 : Retriever :=
  { primary_k := 3, final_k := 2, enable_query_fusion := false,
    enable_hyde := false, fusion_variant_count := 2, rerank_model_id := none,
    last_query_variants := [], last_hypothetical_document := none }

/-- World fixture for Scenario A: base search returns documents A, B, C in
that order. -/
def w8 : World :=
  { search := fun _ _ => .ok [dA, dB, dC]
    fusionBackend := fun _ => .error "unused"
    hydeBackend := fun _ => .error "unused"
    rewriteBackend := fun _ _ => .error "unused"
    rerankBackend := fun _ _ _ _ => .error "unused"
    answerBackend := fun _ _ => .ok (.text "ans") }

/-- The run result of Scenario A. -/
def res8 : PipelineResult :=
  { question := "What is X?", rewritten_question := "What is X?",
    answer := "ans", contexts := [⟨"A", mEmpty⟩, ⟨"B", mEmpty⟩],
    query_variants := [], hyde_document := none }

/-- Retriever fixture with a configured rerank model. -/
def rC5 : Retriever :=
  { primary_k := 3, final_k := 2, enable_query_fusion := false,
    enable_hyde := false, fusion_variant_count := 2,
    rerank_model_id := some "cohere.rerank", last_query_variants := [],
    last_hypothetical_document := none }

/-- World fixture whose rerank backend always fails. -/
def wC5 : World :=
  { search := fun _ _ => .ok [dA, dB, dC]
    fusionBackend := fun _ => .error "unused"
    hydeBackend := fun _ => .error "unused"
    rewriteBackend := fun _ _ => .error "unused"
    rerankBackend := fun _ _ _ _ => .error "down"
    answerBackend := fun _ _ => .ok (.text "ans") }

/-- Settings fixture with a configured rerank size of 0 and a configured
fusion variant count of 0. -/
def stZero : Settings :=
  { vector_search_k := 3, vector_search_k_rerank := 0,
    enable_query_fusion := false, enable_hyde := false,
    fusion_variant_count := 0, bedrock_rerank_model_id := none }

/-! Dedup lemmas. -/

theorem dedupGo_not_seen (l : List Doc) : ∀ (seen : List String) (d : Doc),
    d ∈ dedupGo seen l → dedupKey d ∉ seen := by
  induction l with
  | nil => intro seen d h; simp [dedupGo] at h
  | cons x xs ih =>
    intro seen d h
    by_cases hx : dedupKey x ∈ seen
    · rw [dedupGo, if_pos hx] at h
      exact ih seen d h
    · rw [dedupGo, if_neg hx] at h
      rcases List.mem_cons.mp h with rfl | h2
      · exact hx
      · exact fun hmem => ih _ d h2 (List.mem_cons_of_mem _ hmem)

theorem dedupGo_pairwise (l : List Doc) : ∀ seen : List String,
    (dedupGo seen l).Pairwise (fun a b => dedupKey a ≠ dedupKey b) := by
  induction l with
  | nil => intro seen; simp [dedupGo]
  | cons x xs ih =>
    intro seen
    by_cases hx : dedupKey x ∈ seen
    · rw [dedupGo, if_pos hx]; exact ih seen
    · rw [dedupGo, if_neg hx]
      refine List.Pairwise.cons ?_ (ih _)
      intro b hb hEq
      exact dedupGo_not_seen xs _ b hb (hEq ▸ List.mem_cons_self _ _)

theorem dedupGo_of_fresh (l : List Doc) : ∀ seen : List String,
    l.Pairwise (fun a b => dedupKey a ≠ dedupKey b) →
    (∀ d ∈ l, dedupKey d ∉ seen) →
    dedupGo seen l = l := by
  induction l with
  | nil => intro seen _ _; rfl
  | cons x xs ih =>
    intro seen hp hs
    obtain ⟨hhead, htail⟩ := List.pairwise_cons.mp hp
    have hx : dedupKey x ∉ seen := hs x (List.mem_cons_self _ _)
    rw [dedupGo, if_neg hx]
    congr 1
    refine ih _ htail ?_
    intro d hd hmem
    rcases List.mem_cons.mp hmem with hEq | hmem2
    · exact hhead d hd hEq.symm
    · exact hs d (List.mem_cons_of_mem _ hd) hmem2

theorem dedupGo_length (l : List Doc) : ∀ seen : List String,
    (dedupGo seen l).length ≤ l.length := by
  induction l with
  | nil => intro seen; simp [dedupGo]
  | cons x xs ih =>
    intro seen
    by_cases hx : dedupKey x ∈ seen
    · rw [dedupGo, if_pos hx]
      exact le_trans (ih seen) (Nat.le_succ _)
    · rw [dedupGo, if_neg hx]
      simpa using ih (dedupKey x :: seen)

theorem dedupKey_eq_amended (d : Doc) : dedupKey d = dedupKeyAmended d := by
  unfold dedupKey dedupKeyAmended
  cases d.metadata.chunk_id <;> rfl

theorem dedupGo_eq_byKeyAmended (l : List Doc) : ∀ seen : List String,
    dedupGo seen l = dedupByKey dedupKeyAmended seen l := by
  induction l with
  | nil => intro seen; rfl
  | cons x xs ih =>
    intro seen
    rw [dedupGo, dedupByKey, ← dedupKey_eq_amended x]
    by_cases hx : dedupKey x ∈ seen
    · rw [if_pos hx, if_pos hx, ih]
    · rw [if_neg hx, if_neg hx, ih]

/-- C6: dedup is idempotent and never lengthens its input, and on the pool
built from base results [A, B] followed by fusion-variant results [B, C] it
yields [A, B, C], keeping B from its first occurrence. -/
theorem c6_dedup_idempotent :
    (∀ X : List Doc, deduplicate (deduplicate X) = deduplicate X) ∧
    (∀ X : List Doc, (deduplicate X).length ≤ X.length) ∧
    deduplicate ([dA, dB] ++ [dB, dC]) = [dA, dB, dC] := by
  refine ⟨?_, ?_, ?_⟩
  · intro X
    unfold deduplicate
    refine dedupGo_of_fresh _ _ (dedupGo_pairwise X []) ?_
    intro d _
    simp
  · intro X
    exact dedupGo_length X []
  · rfl

/-- C2 counterexample: for a document whose metadata has a source but no
chunk id, the code's key is the source alone, not the content prefix that the
claim prescribes, and dedup visibly differs: two distinct-content documents
sharing such metadata collapse to one. -/
theorem c2_counterexample :
    dedupKey dS1 = "s" ∧ dedupKeyClaim dS1 = "abc" ∧
    deduplicate [dS1, dS2] = [dS1] ∧
    dedupByKey dedupKeyClaim [] [dS1, dS2] = [dS1, dS2] ∧
    deduplicate [dS1, dS2] ≠ dedupByKey dedupKeyClaim [] [dS1, dS2] := by
  refine ⟨rfl, rfl, rfl, rfl, ?_⟩
  decide

/-- C2 amended: the key is the concatenation of the source (or "") and the
string of the chunk id (or ""), with the first 100 characters of the content
used only when that concatenation is empty; dedup iterates in pool order and
keeps exactly the first candidate observed for each such key, preserving
relative order. -/
theorem c2_amended :
    (∀ d : Doc, dedupKey d = dedupKeyAmended d) ∧
    (∀ docs : List Doc, deduplicate docs = dedupByKey dedupKeyAmended [] docs) := by
  refine ⟨dedupKey_eq_amended, ?_⟩
  intro docs
  exact dedupGo_eq_byKeyAmended docs []

/-! Variant-parsing lemmas. -/

theorem parseVariantsGo_eq (count : Int) (query : String) (lines : List String) :
    ∀ acc : List String, (acc.length : Int) < count →
    parseVariantsGo count query acc lines =
      acc.reverse ++ (((lines.map stripVariantLine).filter
        fun s => s != "" && pyLower s != pyLower query).take
          (count.toNat - acc.length)) := by
  induction lines with
  | nil => intro acc h; simp [parseVariantsGo]
  | cons line rest ih =>
    intro acc hacc
    by_cases h1 : stripVariantLine line = ""
    · rw [parseVariantsGo]
      simp only [h1, if_pos rfl]
      have hp : (stripVariantLine line != "" &&
          pyLower (stripVariantLine line) != pyLower query) = false := by
        simp [h1]
      simp only [List.map_cons, List.filter_cons, hp, Bool.false_eq_true,
        if_false]
      exact ih acc hacc
    · by_cases h2 : pyLower (stripVariantLine line) = pyLower query
      · rw [parseVariantsGo, if_neg h1, if_pos h2]
        have hp : (stripVariantLine line != "" &&
            pyLower (stripVariantLine line) != pyLower query) = false := by
          simp [h2]
        simp only [List.map_cons, List.filter_cons, hp, Bool.false_eq_true,
          if_false]
        exact ih acc hacc
      · rw [parseVariantsGo, if_neg h1, if_neg h2]
        have hp : (stripVariantLine line != "" &&
            pyLower (stripVariantLine line) != pyLower query) = true := by
          simp [h1, h2]
        simp only [List.map_cons, List.filter_cons, hp, if_true]
        by_cases h3 : count ≤ ((stripVariantLine line :: acc).length : Int)
        · rw [if_pos h3]
          have hlen : count.toNat - acc.length = 1 := by
            simp only [List.length_cons, Nat.cast_add, Nat.cast_one] at h3
            omega
          rw [hlen]
          simp [List.reverse_cons]
        · rw [if_neg h3]
          push_neg at h3
          rw [ih _ h3]
          have hlen : count.toNat - acc.length =
              (count.toNat - (stripVariantLine line :: acc).length) + 1 := by
            simp only [List.length_cons, Nat.cast_add, Nat.cast_one] at h3
            simp only [List.length_cons]
            omega
          rw [hlen, List.take_succ_cons]
          simp [List.reverse_cons]

/-- C7 counterexample: on the single response line "v2 *" the code also
strips the trailing asterisk, while the claimed rule (leading markers plus
surrounding whitespace) keeps it, so the parsed variants differ. -/
theorem c7_counterexample :
    parseVariants 2 "q" "v2 *" = ["v2"] ∧
    parseVariantsClaim 2 "q" "v2 *" = ["v2 *"] ∧
    parseVariants 2 "q" "v2 *" ≠ parseVariantsClaim 2 "q" "v2 *" := by
  refine ⟨rfl, rfl, ?_⟩
  decide

/-- C7 amended: variant parsing splits the response into lines, strips
bullet/dash/asterisk markers and spaces from both ends of each line (plus
surrounding whitespace), discards blank lines and lines case-insensitively
equal to the base question, and keeps at most fusion_variant_count lines in
response order (for any count of at least 1, which construction guarantees);
Scenario B: with count 2, base question "v1" and lines "- v1", "v1", "v2",
the parsed variants are exactly ["v2"]. -/
theorem c7_amended :
    (∀ (count : Int) (query content : String), 1 ≤ count →
      parseVariants count query content = parseVariantsAmended count query content) ∧
    parseVariants 2 "v1" "- v1\nv1\nv2" = ["v2"] := by
  constructor
  · intro count query content hc
    unfold parseVariants parseVariantsAmended
    have h := parseVariantsGo_eq count query (splitlines content) []
      (by simp only [List.length_nil, Nat.cast_zero]; omega)
    simpa using h
  · rfl

/-- C7 amended witness: the equivalence instantiated at Scenario B. -/
theorem c7_amended_witness :
    parseVariants 2 "v1" "- v1\nv1\nv2" = parseVariantsAmended 2 "v1" "- v1\nv1\nv2" :=
  c7_amended.1 2 "v1" "- v1\nv1\nv2" (by decide)

/-! Rerank lemmas. -/

theorem pySliceTo_length_le {k : Int} (hk : 0 ≤ k) (xs : List α) :
    (pySliceTo k xs).length ≤ k.toNat := by
  unfold pySliceTo
  rw [if_pos hk]
  simp [List.length_take]

theorem rankedFromResults_length (docs : List Doc) :
    ∀ (rs : List RerankEntry) (l : List Doc),
    rankedFromResults docs rs = .ok l → l.length ≤ rs.length := by
  intro rs
  induction rs with
  | nil =>
    intro l h
    rw [rankedFromResults] at h
    cases h
    simp
  | cons r rs ih =>
    intro l h
    obtain ⟨idx, score⟩ := r
    cases idx with
    | none =>
      rw [rankedFromResults] at h
      exact le_trans (ih l h) (Nat.le_succ _)
    | some i =>
      rw [rankedFromResults] at h
      by_cases hge : (docs.length : Int) ≤ i
      · rw [if_pos hge] at h
        exact le_trans (ih l h) (Nat.le_succ _)
      · rw [if_neg hge] at h
        cases hpg : pyListGet docs i with
        | error e =>
          simp only [hpg] at h
          exact Except.noConfusion h
        | ok d =>
          cases hrr : rankedFromResults docs rs with
          | error e =>
            simp only [hpg, hrr] at h
            exact Except.noConfusion h
          | ok rest =>
            simp only [hpg, hrr] at h
            cases h
            simpa using Nat.succ_le_succ (ih rest hrr)

theorem rankedFromResults_invalid (docs : List Doc) :
    ∀ rs : List RerankEntry,
    (∀ e ∈ rs, entryInvalid docs e) →
    rankedFromResults docs rs = .ok [] ∨
      ∃ m, rankedFromResults docs rs = .error m := by
  intro rs
  induction rs with
  | nil => intro _; left; rfl
  | cons r rs ih =>
    intro hall
    obtain ⟨idx, score⟩ := r
    have hr := hall ⟨idx, score⟩ (List.mem_cons_self _ _)
    have htail := fun e he => hall e (List.mem_cons_of_mem _ he)
    rcases hr with hnone | ⟨i, hi, hbad⟩
    · have hn : idx = none := hnone
      subst hn
      rw [rankedFromResults]
      exact ih htail
    · have hs : idx = some i := hi
      subst hs
      rw [rankedFromResults]
      rcases hbad with hge | hneg
      · rw [if_pos hge]
        exact ih htail
      · have hlen0 : (0 : Int) ≤ (docs.length : Int) := by positivity
        have hlt : ¬ ((docs.length : Int) ≤ i) := by omega
        rw [if_neg hlt]
        have hpg : pyListGet docs i = .error "list index out of range" := by
          unfold pyListGet
          have hi0 : i < 0 := by omega
          have hj : ¬ ((0 : Int) ≤ (docs.length : Int) + i) := by omega
          simp [hi0, hj]
        right
        refine ⟨"list index out of range", ?_⟩
        simp only [hpg]

theorem applyRerank_length (r : Retriever) (w : World) (q : String)
    (docs : List Doc) (hk : 0 ≤ r.final_k)
    (hc : ∀ mid qq ds n results,
      w.rerankBackend mid qq ds n = .ok results → (results.length : Int) ≤ n) :
    (applyRerank r w q docs).length ≤ r.final_k.toNat := by
  rcases hm : r.rerank_model_id with _ | mid
  · simp only [applyRerank, hm]
    exact pySliceTo_length_le hk docs
  · simp only [applyRerank, hm]
    by_cases hmid : mid = ""
    · rw [if_pos hmid]
      exact pySliceTo_length_le hk docs
    · rw [if_neg hmid]
      cases hir : invokeRerank w mid q docs r.final_k with
      | error e => exact pySliceTo_length_le hk docs
      | ok reranked =>
        show (if reranked = [] then pySliceTo r.final_k docs
          else reranked).length ≤ r.final_k.toNat
        by_cases hre : reranked = []
        · rw [if_pos hre]
          exact pySliceTo_length_le hk docs
        · rw [if_neg hre]
          by_cases hd : docs = []
          · rw [invokeRerank, if_pos hd] at hir
            cases hir
            exact absurd rfl hre
          · rw [invokeRerank, if_neg hd] at hir
            cases hrb : w.rerankBackend mid q (docs.map Doc.page_content)
                (min r.final_k (docs.length : Int)) with
            | error e =>
              simp only [hrb] at hir
              exact Except.noConfusion hir
            | ok results =>
              simp only [hrb] at hir
              have h1 := rankedFromResults_length docs results reranked hir
              have h2 := hc mid q _ _ results hrb
              have h3 : (reranked.length : Int) ≤ r.final_k := by
                calc (reranked.length : Int) ≤ (results.length : Int) := by
                      exact_mod_cast h1
                  _ ≤ min r.final_k (docs.length : Int) := h2
                  _ ≤ r.final_k := min_le_left _ _
              omega

/-- C5: with a configured rerank model, a backend error, an empty result
list, or a result list with no usable entry all make the rerank stage return
exactly the no-rerank truncation of the candidate pool; the stage itself is
total, so no error reaches the caller. -/
theorem c5_rerank_fallback : ∀ (r : Retriever) (w : World) (q : String)
    (docs : List Doc) (mid : String),
    r.rerank_model_id = some mid → mid ≠ "" →
    ((∀ e, w.rerankBackend mid q (docs.map Doc.page_content)
        (min r.final_k (docs.length : Int)) = .error e →
        applyRerank r w q docs = pySliceTo r.final_k docs) ∧
     (w.rerankBackend mid q (docs.map Doc.page_content)
        (min r.final_k (docs.length : Int)) = .ok [] →
        applyRerank r w q docs = pySliceTo r.final_k docs) ∧
     (∀ results, w.rerankBackend mid q (docs.map Doc.page_content)
        (min r.final_k (docs.length : Int)) = .ok results →
        (∀ e ∈ results, entryInvalid docs e) →
        applyRerank r w q docs = pySliceTo r.final_k docs)) := by
  intro r w q docs mid hm hmid
  have happ : applyRerank r w q docs =
      match invokeRerank w mid q docs r.final_k with
      | .error _ => pySliceTo r.final_k docs
      | .ok reranked =>
        if reranked = [] then pySliceTo r.final_k docs else reranked := by
    simp only [applyRerank, hm, if_neg hmid]
  by_cases hd : docs = []
  · have hir : invokeRerank w mid q docs r.final_k = .ok [] := by
      rw [invokeRerank, if_pos hd]
    have hall : applyRerank r w q docs = pySliceTo r.final_k docs := by
      rw [happ, hir]
      simp
    exact ⟨fun _ _ => hall, fun _ => hall, fun _ _ _ => hall⟩
  · have hirErr : ∀ e, w.rerankBackend mid q (docs.map Doc.page_content)
        (min r.final_k (docs.length : Int)) = .error e →
        invokeRerank w mid q docs r.final_k = .error e := by
      intro e hX
      rw [invokeRerank, if_neg hd, hX]
    have hirOk : ∀ results, w.rerankBackend mid q (docs.map Doc.page_content)
        (min r.final_k (docs.length : Int)) = .ok results →
        invokeRerank w mid q docs r.final_k = rankedFromResults docs results := by
      intro results hX
      rw [invokeRerank, if_neg hd, hX]
    refine ⟨?_, ?_, ?_⟩
    · intro e he
      rw [happ, hirErr _ he]
    · intro he
      rw [happ, hirOk _ he]
      have h0 : rankedFromResults docs [] = .ok ([] : List Doc) := rfl
      rw [h0]
      simp
    · intro results he hinv
      rw [happ, hirOk _ he]
      rcases rankedFromResults_invalid docs results hinv with h | ⟨m, h⟩
      · rw [h]
        simp
      · rw [h]

/-- C5 witness: a concrete failing rerank backend falls back to the
truncation. -/
theorem c5_rerank_fallback_witness :
    applyRerank rC5 wC5 "q" [dA, dB, dC] = pySliceTo rC5.final_k [dA, dB, dC] :=
  (c5_rerank_fallback rC5 wC5 "q" [dA, dB, dC] "cohere.rerank" rfl
    (by decide)).1 "down" rfl

/-- C8: with no rerank backend configured the rerank stage returns exactly
the first final_k candidates in dedup-preserved order, and Scenario A
(history absent, fusion and HyDE off, no rerank, primary_k 3 and final_k 2,
base search [A, B, C]) produces contexts [A, B]. -/
theorem c8_no_rerank_truncation :
    (∀ (r : Retriever) (w : World) (q : String) (docs : List Doc),
        r.rerank_model_id = none →
        applyRerank r w q docs = pySliceTo r.final_k docs) ∧
    run r8 w8 "What is X?" none = (.ok res8, r8) ∧
    res8.contexts = [⟨"A", mEmpty⟩, ⟨"B", mEmpty⟩] := by
  refine ⟨?_, rfl, rfl⟩
  intro r w q docs hm
  unfold applyRerank
  rw [hm]

/-- C8 witness: the truncation equation instantiated at the Scenario A
fixtures. -/
theorem c8_no_rerank_truncation_witness :
    applyRerank r8 w8 "q" [dA, dB, dC] = pySliceTo r8.final_k [dA, dB, dC] :=
  c8_no_rerank_truncation.1 r8 w8 "q" [dA, dB, dC] rfl

/-! Configuration-preservation lemmas and run-shape lemmas. -/

theorem cfgEq_trans {a b c : Retriever} (h1 : cfgEq a b) (h2 : cfgEq b c) :
    cfgEq a c := by
  obtain ⟨p1, f1, q1, y1, v1, m1⟩ := h1
  obtain ⟨p2, f2, q2, y2, v2, m2⟩ := h2
  exact ⟨p1.trans p2, f1.trans f2, q1.trans q2, y1.trans y2,
    v1.trans v2, m1.trans m2⟩

theorem genVariants_cfg (r : Retriever) (w : World) (q : String) :
    cfgEq r (generateVariantQueries r w q).2 := by
  cases hf : r.enable_query_fusion
  · simp [generateVariantQueries, hf, cfgEq]
  · cases hb : w.fusionBackend q <;>
      simp [generateVariantQueries, hf, hb, cfgEq]

theorem genHypo_cfg (r : Retriever) (w : World) (q : String) :
    cfgEq r (generateHypotheticalDocument r w q).2 := by
  cases hf : r.enable_hyde
  · simp [generateHypotheticalDocument, hf, cfgEq]
  · cases hb : w.hydeBackend q <;>
      simp [generateHypotheticalDocument, hf, hb, cfgEq]

theorem retrieveCandidates_cfg (r : Retriever) (w : World) (q : String) :
    cfgEq r (retrieveCandidates r w q).2 := by
  cases hbase : w.search q r.primary_k with
  | error e =>
    simp only [retrieveCandidates, hbase]
    exact ⟨rfl, rfl, rfl, rfl, rfl, rfl⟩
  | ok base =>
    have h1 := genVariants_cfg r w q
    cases hgv : generateVariantQueries r w q with
    | mk eg r1 =>
      have h1' : cfgEq r r1 := by rw [hgv] at h1; exact h1
      cases eg with
      | error e =>
        simp only [retrieveCandidates, hbase, hgv]
        exact h1'
      | ok variants =>
        cases hsv : searchVariants w r.primary_k variants with
        | error e =>
          simp only [retrieveCandidates, hbase, hgv, hsv]
          exact h1'
        | ok vdocs =>
          have h2 := genHypo_cfg r1 w q
          cases hgh : generateHypotheticalDocument r1 w q with
          | mk eh r2 =>
            have h2' : cfgEq r1 r2 := by rw [hgh] at h2; exact h2
            have htr : cfgEq r r2 := cfgEq_trans h1' h2'
            cases eh with
            | error e =>
              simp only [retrieveCandidates, hbase, hgv, hsv, hgh]
              exact htr
            | ok hypo =>
              by_cases hh : hypo = ""
              · simp only [retrieveCandidates, hbase, hgv, hsv, hgh, if_pos hh]
                exact htr
              · cases hsh : w.search hypo r.primary_k with
                | error e =>
                  simp only [retrieveCandidates, hbase, hgv, hsv, hgh,
                    if_neg hh, hsh]
                  exact htr
                | ok hdocs =>
                  simp only [retrieveCandidates, hbase, hgv, hsv, hgh,
                    if_neg hh, hsh]
                  exact htr

theorem run_cfg (r : Retriever) (w : World) (q : String)
    (h : Option (List Turn)) : cfgEq r (run r w q h).2 := by
  have h1 := retrieveCandidates_cfg r w (rewriteQuestion w q h)
  cases hrc : retrieveCandidates r w (rewriteQuestion w q h) with
  | mk ec r1 =>
    have h1' : cfgEq r r1 := by rw [hrc] at h1; exact h1
    cases ec with
    | error e =>
      simp only [run, getRelevantDocuments, hrc]
      exact h1'
    | ok docs =>
      cases ha : w.answerBackend
          (buildContext (applyRerank r1 w (rewriteQuestion w q h) docs))
          (rewriteQuestion w q h) with
      | error e =>
        simp only [run, getRelevantDocuments, hrc, ha]
        exact h1'
      | ok resp =>
        simp only [run, getRelevantDocuments, hrc, ha]
        exact h1'

theorem run_ok_parts (r : Retriever) (w : World) (q : String)
    (h : Option (List Turn)) (res : PipelineResult) (r' : Retriever)
    (hrun : run r w q h = (.ok res, r')) :
    ∃ docs r1, getRelevantDocuments r w (rewriteQuestion w q h) = (.ok docs, r1) ∧
      res.rewritten_question = rewriteQuestion w q h ∧
      res.contexts = docs.map
        (fun d => { content := d.page_content, metadata := d.metadata }) ∧
      r' = r1 := by
  simp only [run] at hrun
  split at hrun
  · exact absurd hrun (by simp)
  · rename_i docs r1 heq
    split at hrun
    · exact absurd hrun (by simp)
    · rename_i resp ha
      rw [Prod.mk.injEq] at hrun
      obtain ⟨hok, hr1⟩ := hrun
      rw [Except.ok.injEq] at hok
      subst hok
      exact ⟨docs, r1, heq, rfl, rfl, hr1.symm⟩

/-- C3: every successful run returns at most final_k contexts, with any
rerank backend honoring the interface bound that it returns at most topN
results (and in particular with none configured). -/
theorem c3_contexts_le_final_k : ∀ (r : Retriever) (w : World) (q : String)
    (hist : Option (List Turn)) (res : PipelineResult) (r' : Retriever),
    0 ≤ r.final_k →
    (∀ mid qq ds n results,
      w.rerankBackend mid qq ds n = .ok results → (results.length : Int) ≤ n) →
    run r w q hist = (.ok res, r') →
    res.contexts.length ≤ r.final_k.toNat := by
  intro r w q hist res r' hk hc hrun
  obtain ⟨docs, r1, heq, _, hctx, _⟩ := run_ok_parts r w q hist res r' hrun
  unfold getRelevantDocuments at heq
  split at heq
  · exact absurd heq (by simp)
  · rename_i cands r2 hrc
    rw [Prod.mk.injEq] at heq
    obtain ⟨hok, hr12⟩ := heq
    rw [Except.ok.injEq] at hok
    have hcfg := retrieveCandidates_cfg r w (rewriteQuestion w q hist)
    have hcfg' : cfgEq r r2 := by rw [hrc] at hcfg; exact hcfg
    have hfk : r.final_k = r2.final_k := hcfg'.2.1
    have hlen := applyRerank_length r2 w (rewriteQuestion w q hist) cands
      (by rw [← hfk]; exact hk) hc
    rw [hctx, List.length_map, ← hok, hfk]
    exact hlen

/-- C3 witness: the bound instantiated at the Scenario A fixtures. -/
theorem c3_contexts_le_final_k_witness :
    res8.contexts.length ≤ r8.final_k.toNat :=
  c3_contexts_le_final_k r8 w8 "What is X?" none res8 r8 (by decide)
    (fun _ _ _ _ _ hx => Except.noConfusion hx) rfl

/-- C9: with empty or absent history the rewritten question is the original
question, independently of the rewrite backend (so the backend is never
consulted), and a successful run reports that question as
rewritten_question. -/
theorem c9_rewrite_identity : ∀ (w : World) (q : String)
    (hist : Option (List Turn)),
    hist = none ∨ hist = some [] →
    (rewriteQuestion w q hist = q ∧
     (∀ rb, rewriteQuestion { w with rewriteBackend := rb } q hist = q) ∧
     (∀ (r : Retriever) (res : PipelineResult) (r' : Retriever),
        run r w q hist = (.ok res, r') → res.rewritten_question = q)) := by
  intro w q hist hh
  have hrw : ∀ w' : World, rewriteQuestion w' q hist = q := by
    intro w'
    rcases hh with rfl | rfl
    · rfl
    · rfl
  refine ⟨hrw w, fun rb => hrw _, ?_⟩
  intro r res r' hrun
  obtain ⟨docs, r1, heq, hres, _, _⟩ := run_ok_parts r w q hist res r' hrun
  rw [hres, hrw w]

/-- C9 witness: the identity instantiated at absent history. -/
theorem c9_rewrite_identity_witness :
    rewriteQuestion w8 "What is X?" none = "What is X?" :=
  (c9_rewrite_identity w8 "What is X?" none (Or.inl rfl)).1

/-- C1 counterexample: in a world whose base search succeeds on every query
but whose fusion generation backend fails, the run propagates the fusion
error instead of returning a complete result. -/
theorem c1_counterexample :
    wC1.search "q" rC1.primary_k = .ok [dA] ∧
    (run rC1 wC1 "q" none).1 = .error "boom" :=
  ⟨rfl, rfl⟩

/-- C1 amended: an error of the fusion generation call or of the HyDE
generation call is not caught: it propagates out of the run even when the
base similarity search succeeds; only rewrite and rerank failures are
recoverable. -/
theorem c1_amended : ∀ (r : Retriever) (w : World) (q e : String),
    ((r.enable_query_fusion = true →
      (∃ base, w.search q r.primary_k = .ok base) →
      w.fusionBackend q = .error e →
      (run r w q none).1 = .error e) ∧
     (r.enable_query_fusion = false → r.enable_hyde = true →
      (∃ base, w.search q r.primary_k = .ok base) →
      w.hydeBackend q = .error e →
      (run r w q none).1 = .error e)) := by
  intro r w q e
  constructor
  · rintro hf ⟨base, hbase⟩ hfb
    simp only [run, getRelevantDocuments, retrieveCandidates, rewriteQuestion,
      hbase, generateVariantQueries, hf, hfb]
  · rintro hf hh ⟨base, hbase⟩ hhb
    simp only [run, getRelevantDocuments, retrieveCandidates, rewriteQuestion,
      hbase, generateVariantQueries, hf, searchVariants,
      generateHypotheticalDocument, hh, hhb]

/-- C1 amended witness: the propagation instantiated at the concrete
fixtures. -/
theorem c1_amended_witness : (run rC1 wC1 "q" none).1 = .error "boom" :=
  (c1_amended rC1 wC1 "q" "boom").1 rfl ⟨[dA], rfl⟩ rfl

/-- C4 counterexample: a run overwrites the retriever's shared
last_query_variants field, so the retriever is not unchanged. -/
theorem c4_counterexample :
    rC4.last_query_variants = ["old"] ∧
    (run rC4 wC4 "q" none).2.last_query_variants = ["v2"] ∧
    (run rC4 wC4 "q" none).2 ≠ rC4 := by
  refine ⟨rfl, rfl, ?_⟩
  decide

/-- C4 amended: a run leaves every configuration field of the retriever
unchanged (primary_k, final_k, the two enable flags, fusion_variant_count,
rerank_model_id), but the retriever's last_query_variants and
last_hypothetical_document are per-request mutable state, overwritten by
runs, as the concrete run shows. -/
theorem c4_amended :
    (∀ (r : Retriever) (w : World) (q : String) (hist : Option (List Turn)),
      cfgEq r (run r w q hist).2) ∧
    (run rC4 wC4 "q" none).2.last_query_variants = ["v2"] :=
  ⟨run_cfg, rfl⟩

/-- C10: construction clamps final_k to max(vector_search_k_rerank, 1) and
fusion_variant_count to max(fusion_variant_count, 1), so both are at least 1
for every configuration; with a configured rerank size of 0 and no rerank
backend, a two-candidate pool still yields one context. -/
theorem c10_constructor_clamps : ∀ st : Settings,
    ((mkRetriever st).final_k = max st.vector_search_k_rerank 1 ∧
     (mkRetriever st).fusion_variant_count = max st.fusion_variant_count 1 ∧
     1 ≤ (mkRetriever st).final_k ∧
     1 ≤ (mkRetriever st).fusion_variant_count ∧
     (st.vector_search_k_rerank ≤ 0 → (mkRetriever st).final_k = 1)) ∧
    applyRerank (mkRetriever stZero) w8 "q" [dA, dB] = [dA] := by
  intro st
  refine ⟨⟨rfl, rfl, le_max_right _ _, le_max_right _ _, ?_⟩, rfl⟩
  intro hle
  simp only [mkRetriever]
  omega

/-- C10 witness: the clamp instantiated at a configured rerank size of 0. -/
theorem c10_constructor_clamps_witness :
    (mkRetriever stZero).final_k = 1 :=
  (c10_constructor_clamps stZero).1.2.2.2.2 (by decide)

end RagDemo
